import Mathlib

/-!
Verification development for the port_game repository.

The repository is a React/TypeScript web frontend over a Rust/WebAssembly
game core.  The Rust core (domain model, event store, CQRS handlers, turn
engine, MCTS engine, game session) is not present in the source tree we
verify; only its TypeScript callers, type declarations, end-to-end tests
and documentation are.  Definitions below that embed that core are
therefore modelled from the specification text, and each such definition
says so in its doc comment.  The TSX components (Berth drag-and-drop,
Ship progress bar, the useGame hook) are embedded directly from their
source files.
-/

namespace PortGame

/-- Modelled from the spec: the fixed catalogue of random events
(Storm, GoodWeather, CraneBreakdown, RushHour, CustomsInspection);
the Rust event-generation code is missing from the tree. -/
inductive EventKind
  | storm
  | goodWeather
  | craneBreakdown
  | rushHour
  | customsInspection
deriving DecidableEq

/-- Modelled from the spec: an ActiveEffect is a timed modifier with a
remaining-turns counter and a multiplicative modifier on crane speed. -/
structure ActiveEffect where
  kind : EventKind
  turns_remaining : Nat
deriving DecidableEq

/-- Modelled from the spec: the crane-efficiency multiplier of an event,
in percent (Storm x0.5, GoodWeather x1.3; the spec leaves the other
constants open, we take them neutral). -/
def multPercent : EventKind → Nat
  | .storm => 50
  | .goodWeather => 130
  | _ => 100

/-- Ship state, fields as in web/src/types/game.ts (Ship interface). -/
structure Ship where
  id : Nat
  containers : Nat
  containers_remaining : Nat
  arrival_time : Nat
  is_docked : Bool
  docked_at : Option Nat
  assigned_cranes : List Nat
deriving DecidableEq

/-- Berth state, fields as in web/src/types/game.ts (Berth interface). -/
structure Berth where
  id : Nat
  is_free : Bool
  occupied_by : Option Nat
deriving DecidableEq

/-- Crane state, fields as in web/src/types/game.ts (Crane interface). -/
structure Crane where
  id : Nat
  is_free : Bool
  assigned_to : Option Nat
  processing_speed : Nat
deriving DecidableEq

/-- Port aggregate, fields as in web/src/types/game.ts (PortState);
next_id is the fresh-ship-id counter of the spawn policy. -/
structure PortState where
  ships : List Ship
  berths : List Berth
  cranes : List Crane
  score : Int
  next_id : Nat
deriving DecidableEq

/-- Winner values player / ai / tie as in the GameState type. -/
inductive Winner
  | player
  | ai
  | tie
deriving DecidableEq

/-- Modelled from the spec: the projected state of a GameSession — the
two Ports, the shared turn counter, active effects, the game-over flag
and the declared winner. -/
structure ProjState where
  port0 : PortState
  port1 : PortState
  turn : Nat
  effects : List ActiveEffect
  gameOver : Bool
  winner : Option Winner
deriving DecidableEq

/-- Modelled from the spec: the DomainEvent vocabulary
ShipArrived, ShipDocked, CraneAssigned, ContainersProcessed,
ShipUndocked, RandomEventTriggered, EffectExpired, TurnEnded, GameEnded,
each with the minimal fields needed to reconstruct the transition.
The first Nat of the entity events is the owning port (0 human, 1 AI).
TurnEnded carries both ports' waiting-ship counts so that the
waiting-ship penalty replays deterministically. -/
inductive DomainEvent
  | shipArrived (port sid containers atime : Nat)
  | shipDocked (port sid bid : Nat)
  | craneAssigned (port cid sid : Nat)
  | containersProcessed (port sid amount : Nat)
  | shipUndocked (port sid : Nat)
  | randomEventTriggered (kind : EventKind) (turns : Nat)
  | effectExpired (kind : EventKind)
  | turnEnded (w0 w1 : Nat)
  | gameEnded
deriving DecidableEq

def lookupShip (port : PortState) (sid : Nat) : Option Ship :=
  port.ships.find? fun s => s.id == sid

def lookupBerth (port : PortState) (bid : Nat) : Option Berth :=
  port.berths.find? fun b => b.id == bid

def lookupCrane (port : PortState) (cid : Nat) : Option Crane :=
  port.cranes.find? fun c => c.id == cid

/-- Modelled from the spec: effect of ShipArrived — a new waiting ship
with a full load joins the port, and the fresh-id counter advances. -/
def arriveApply (port : PortState) (sid containers atime : Nat) : PortState :=
  { port with
    ships := port.ships ++
      [{ id := sid, containers := containers, containers_remaining := containers,
         arrival_time := atime, is_docked := false, docked_at := none,
         assigned_cranes := [] }],
    next_id := sid + 1 }

/-- Modelled from the spec: effect of ShipDocked — the ship gets a berth
back-reference and the berth becomes occupied by the ship. -/
def dockApply (port : PortState) (sid bid : Nat) : PortState :=
  { port with
    ships := port.ships.map fun s =>
      if s.id == sid then { s with is_docked := true, docked_at := some bid } else s,
    berths := port.berths.map fun b =>
      if b.id == bid then { b with is_free := false, occupied_by := some sid } else b }

/-- Modelled from the spec: effect of CraneAssigned — the crane becomes
busy on the ship and joins the ship's assigned-crane set. -/
def assignApply (port : PortState) (cid sid : Nat) : PortState :=
  { port with
    cranes := port.cranes.map fun c =>
      if c.id == cid then { c with is_free := false, assigned_to := some sid } else c,
    ships := port.ships.map fun s =>
      if s.id == sid then { s with assigned_cranes := s.assigned_cranes ++ [cid] } else s }

/-- Modelled from the spec: effect of ContainersProcessed — the ship's
remaining containers drop by the processed amount (floored at zero by
construction of the amount), and, when the ship thereby finishes, the
owning Port's score increases by 10 per container unloaded this turn. -/
def processApply (port : PortState) (sid amount : Nat) : PortState :=
  match lookupShip port sid with
  | none => port
  | some sh =>
    let newRem := sh.containers_remaining - amount
    { port with
      ships := port.ships.map fun s =>
        if s.id == sid then { s with containers_remaining := newRem } else s,
      score := if newRem == 0 then port.score + 10 * amount else port.score }

/-- Modelled from the spec: effect of ShipUndocked — the fully unloaded
ship frees its berth and its cranes and leaves active simulation state. -/
def undockApply (port : PortState) (sid : Nat) : PortState :=
  match lookupShip port sid with
  | none => port
  | some sh =>
    { port with
      ships := port.ships.filter fun s => s.id != sid,
      berths := port.berths.map fun b =>
        if sh.docked_at == some b.id then { b with is_free := true, occupied_by := none } else b,
      cranes := port.cranes.map fun c =>
        if sh.assigned_cranes.contains c.id then { c with is_free := true, assigned_to := none } else c }

/-- Modelled from the spec: active effects are decremented once per turn
and removed when their counter reaches zero. -/
def tickEffects (effects : List ActiveEffect) : List ActiveEffect :=
  effects.filterMap fun e =>
    if e.turns_remaining ≤ 1 then none
    else some { e with turns_remaining := e.turns_remaining - 1 }

/-- Apply a per-port update to port 0 or port 1 of the session state;
any other port index leaves the state unchanged. -/
def applyToPort (st : ProjState) (p : Nat) (f : PortState → PortState) : ProjState :=
  if p == 0 then { st with port0 := f st.port0 }
  else if p == 1 then { st with port1 := f st.port1 }
  else st

/-- Modelled from the spec: the pure event projector — current state is
a fold of this function over the event log. -/
def applyEvent (st : ProjState) : DomainEvent → ProjState
  | .shipArrived p sid c t => applyToPort st p fun port => arriveApply port sid c t
  | .shipDocked p sid bid => applyToPort st p fun port => dockApply port sid bid
  | .craneAssigned p cid sid => applyToPort st p fun port => assignApply port cid sid
  | .containersProcessed p sid a => applyToPort st p fun port => processApply port sid a
  | .shipUndocked p sid => applyToPort st p fun port => undockApply port sid
  | .randomEventTriggered k turns =>
      { st with effects := st.effects ++ [{ kind := k, turns_remaining := turns }] }
  | .effectExpired _ => st
  | .turnEnded w0 w1 =>
      { st with
        port0 := { st.port0 with score := st.port0.score - 5 * w0 },
        port1 := { st.port1 with score := st.port1.score - 5 * w1 },
        turn := st.turn + 1,
        effects := tickEffects st.effects }
  | .gameEnded =>
      { st with
        gameOver := true,
        winner := some (if st.port0.score > st.port1.score then Winner.player
                        else if st.port1.score > st.port0.score then Winner.ai
                        else Winner.tie) }

/-- Fold of the projector over an event sequence (projectState). -/
def applyEvents (st : ProjState) (es : List DomainEvent) : ProjState :=
  es.foldl applyEvent st

/-- Modelled from the spec: combined crane-efficiency percentage of the
currently active effects (baseline 100). -/
def effPercent (effects : List ActiveEffect) : Nat :=
  effects.foldl (fun acc e => acc * multPercent e.kind / 100) 100

/-- Modelled from the spec: a crane's per-turn container throughput —
10 containers per unit of processing speed (10 per grue/tour in the
repository documentation), scaled by the active-effect multiplier. -/
def craneRate (port : PortState) (eff cid : Nat) : Nat :=
  match lookupCrane port cid with
  | none => 0
  | some c => c.processing_speed * 10 * eff / 100

/-- Modelled from the spec: a docked ship's unloading rate is the sum of
the effective speeds of each assigned crane. -/
def shipRate (port : PortState) (eff : Nat) (sh : Ship) : Nat :=
  sh.assigned_cranes.foldl (fun acc cid => acc + craneRate port eff cid) 0

/-- Modelled from the spec: container-processing events of one ship —
ContainersProcessed with the unloaded amount, then ShipUndocked when the
ship reaches zero remaining containers. -/
def shipProcEvents (p eff : Nat) (port : PortState) (sh : Ship) : List DomainEvent :=
  if sh.is_docked && !sh.assigned_cranes.isEmpty then
    let a := min (shipRate port eff sh) sh.containers_remaining
    DomainEvent.containersProcessed p sh.id a ::
      (if sh.containers_remaining - a == 0 then [DomainEvent.shipUndocked p sh.id] else [])
  else []

def procEventsAux (p eff : Nat) (port : PortState) : List Ship → List DomainEvent
  | [] => []
  | sh :: rest => shipProcEvents p eff port sh ++ procEventsAux p eff port rest

def portOf (st : ProjState) (p : Nat) : PortState :=
  if p == 0 then st.port0 else st.port1

/-- Modelled from the spec: step 1 of EndTurn — container processing for
every docked ship of port p that has assigned cranes. -/
def procEvents (st : ProjState) (p : Nat) : List DomainEvent :=
  procEventsAux p (effPercent st.effects) (portOf st p) (portOf st p).ships

/-- Modelled from the spec error taxonomy (NotFoundError, OccupiedError,
BusyError, InvalidStateError, GameOverError, FormatError). -/
inductive GameError
  | notFound
  | occupied
  | busy
  | invalidState
  | gameOver
  | formatError
deriving DecidableEq

/-- Modelled from the spec: the DockShip command checks — BerthOccupied
if the berth is not free, ShipNotFound / ShipAlreadyDocked otherwise. -/
def dockCheck (port : PortState) (sid bid : Nat) : Except GameError Unit :=
  match lookupBerth port bid with
  | none => .error .notFound
  | some b =>
    if !b.is_free then .error .occupied
    else
      match lookupShip port sid with
      | none => .error .notFound
      | some sh => if sh.is_docked then .error .invalidState else .ok ()

/-- Modelled from the spec: on success DockShip emits a single
ShipDocked event and frees no other berth. -/
def dockEventsP (p : Nat) (st : ProjState) (sid bid : Nat) :
    Except GameError (List DomainEvent) :=
  (dockCheck (portOf st p) sid bid).map fun _ => [DomainEvent.shipDocked p sid bid]

/-- Modelled from the spec: the AssignCrane command checks — CraneBusy if
the crane is not free, ShipNotDocked if the target ship is not docked. -/
def assignCheck (port : PortState) (cid sid : Nat) : Except GameError Unit :=
  match lookupCrane port cid with
  | none => .error .notFound
  | some c =>
    if !c.is_free then .error .busy
    else
      match lookupShip port sid with
      | none => .error .notFound
      | some sh => if !sh.is_docked then .error .invalidState else .ok ()

/-- Modelled from the spec: on success AssignCrane emits a single
CraneAssigned event. -/
def assignEventsP (p : Nat) (st : ProjState) (cid sid : Nat) :
    Except GameError (List DomainEvent) :=
  (assignCheck (portOf st p) cid sid).map fun _ => [DomainEvent.craneAssigned p cid sid]

/-- Modelled from the spec: the action vocabulary of the MCTS engine —
DockShip, AssignCrane or PassTurn. -/
inductive AIAction
  | dock (sid bid : Nat)
  | assign (cid sid : Nat)
  | passTurn
deriving DecidableEq

/-- Modelled from the spec: step 3 of EndTurn applies the MCTS-chosen
action on the AI port through the same command handlers as the human
player; an illegal choice surfaces no error and is a no-op. -/
def aiEvents (st : ProjState) : AIAction → List DomainEvent
  | .dock sid bid =>
      match dockEventsP 1 st sid bid with
      | .ok es => es
      | .error _ => []
  | .assign cid sid =>
      match assignEventsP 1 st cid sid with
      | .ok es => es
      | .error _ => []
  | .passTurn => []

/-- Modelled from the spec: SpawnShips emits one ShipArrived per created
ship, with consecutive fresh ids; the container loads are the explicit
pseudo-random draws (the spec leaves the exact range open). -/
def arrivalsFrom (p nid atime : Nat) : List Nat → List DomainEvent
  | [] => []
  | l :: ls => DomainEvent.shipArrived p nid l atime :: arrivalsFrom p (nid + 1) atime ls

/-- Modelled from the spec: the outcome of the per-turn random draw —
which catalogue event fired and for how many turns. -/
structure Draw where
  kind : EventKind
  turns : Nat
deriving DecidableEq

/-- Modelled from the spec: step 5 of EndTurn — applying a drawn event
records RandomEventTriggered (creating an ActiveEffect); RushHour's
consequence is an extra ship spawn in each port. -/
def drawEvents (st : ProjState) : Option Draw → List DomainEvent
  | none => []
  | some d =>
      DomainEvent.randomEventTriggered d.kind d.turns ::
        (if d.kind == .rushHour then
          [DomainEvent.shipArrived 0 st.port0.next_id 50 st.turn,
           DomainEvent.shipArrived 1 st.port1.next_id 50 st.turn]
        else [])

/-- Ships still waiting (not yet docked) in a port. -/
def waitingCount (port : PortState) : Nat :=
  (port.ships.filter fun s => !s.is_docked).length

/-- Modelled from the spec: EffectExpired is emitted for every active
effect whose counter runs out on this turn's decrement. -/
def expiredEvents (effects : List ActiveEffect) : List DomainEvent :=
  effects.filterMap fun e =>
    if e.turns_remaining ≤ 1 then some (DomainEvent.effectExpired e.kind) else none

/-- Modelled from the spec: step 6 of EndTurn — after the increment, if
the shared counter has reached 10 the session emits GameEnded. -/
def endedEvents (st : ProjState) : List DomainEvent :=
  if 10 ≤ st.turn + 1 then [DomainEvent.gameEnded] else []

/-- Modelled from the spec: step 4 of EndTurn — on every 3rd completed
turn (1-indexed counter divisible by 3) spawn 2 new ships into the human
Port's waiting queue and symmetrically 2 into the AI Port. -/
def spawnAuto (st : ProjState) (loads : Nat × Nat) : List DomainEvent :=
  if (st.turn + 1) % 3 == 0 then
    arrivalsFrom 0 st.port0.next_id st.turn [loads.1, loads.2] ++
      arrivalsFrom 1 st.port1.next_id st.turn [loads.1, loads.2]
  else []

/-- Stage 1 events of EndTurn: human-port container processing. -/
def etE1 (st : ProjState) : List DomainEvent :=
  procEvents st 0

/-- State after stage 1 of EndTurn. -/
def etS1 (st : ProjState) : ProjState :=
  applyEvents st (etE1 st)

/-- Stage 3a events of EndTurn: the AI action applied via handlers. -/
def etE2 (st : ProjState) (ai : AIAction) : List DomainEvent :=
  aiEvents (etS1 st) ai

/-- State after the AI action. -/
def etS2 (st : ProjState) (ai : AIAction) : ProjState :=
  applyEvents (etS1 st) (etE2 st ai)

/-- Stage 3b events of EndTurn: AI-port container processing. -/
def etE3 (st : ProjState) (ai : AIAction) : List DomainEvent :=
  procEvents (etS2 st ai) 1

/-- State after AI-port processing. -/
def etS3 (st : ProjState) (ai : AIAction) : ProjState :=
  applyEvents (etS2 st ai) (etE3 st ai)

/-- Stage 4 events of EndTurn: the automatic every-3rd-turn spawn. -/
def etE4 (st : ProjState) (ai : AIAction) (loads : Nat × Nat) : List DomainEvent :=
  spawnAuto (etS3 st ai) loads

/-- State after automatic spawning. -/
def etS4 (st : ProjState) (ai : AIAction) (loads : Nat × Nat) : ProjState :=
  applyEvents (etS3 st ai) (etE4 st ai loads)

/-- Modelled from the spec: the fixed per-call event sequence of
EndTurn — container processing, waiting-ship penalty (the TurnEnded
event carries the waiting counts measured before the AI turn), AI turn,
AI-side processing, automatic spawning, effect expiry, the per-turn
random draw, turn increment, termination check.  The AI action, the
random draw and the spawn loads are the explicitly passed consequences
of the engine's randomness. -/
def endTurnEvents (st : ProjState) (ai : AIAction) (d : Option Draw)
    (loads : Nat × Nat) : List DomainEvent :=
  etE1 st ++ etE2 st ai ++ etE3 st ai ++ etE4 st ai loads ++
    expiredEvents (etS4 st ai loads).effects ++
    [DomainEvent.turnEnded (waitingCount (etS1 st).port0) (waitingCount (etS1 st).port1)] ++
    drawEvents (etS4 st ai loads) d ++ endedEvents (etS4 st ai loads)

/-- A transient random-event notification, drained destructively by the
host (only the catalogue kind matters to the model). -/
structure RandomEventOut where
  kind : EventKind
deriving DecidableEq

def eventToRandom : DomainEvent → Option RandomEventOut
  | .randomEventTriggered k _ => some { kind := k }
  | _ => none

/-- Modelled from the spec: a GameSession — the projected state, the
append-only event log (source of truth) and the transient buffer of
random events produced since the last drain. -/
structure Session where
  projected : ProjState
  log : List DomainEvent
  pending : List RandomEventOut
deriving DecidableEq

/-- Modelled from the spec: the command vocabulary submitted to the
session.  EndTurn carries the consequences of the engine's internal
randomness (chosen AI action, drawn random event, spawn loads)
explicitly, so that replay is deterministic. -/
inductive Command
  | dockShip (sid bid : Nat)
  | assignCrane (cid sid : Nat)
  | spawnShips (loads : List Nat)
  | endTurn (ai : AIAction) (d : Option Draw) (loads : Nat × Nat)
deriving DecidableEq

/-- Modelled from the spec: events emitted by each command; commands
mutate state only by emitting events. -/
def commandEvents (st : ProjState) : Command → Except GameError (List DomainEvent)
  | .dockShip sid bid => dockEventsP 0 st sid bid
  | .assignCrane cid sid => assignEventsP 0 st cid sid
  | .spawnShips loads => .ok (arrivalsFrom 0 st.port0.next_id st.turn loads)
  | .endTurn ai d loads => .ok (endTurnEvents st ai d loads)

/-- Append freshly emitted events: the log grows, the projection folds
them in, and RandomEventTriggered events enter the transient buffer. -/
def push (s : Session) (es : List DomainEvent) : Session :=
  { projected := applyEvents s.projected es,
    log := s.log ++ es,
    pending := s.pending ++ es.filterMap eventToRandom }

/-- Modelled from the spec: submitCommand routes to the handlers and
rejects every command with GameOverError once the session is over;
failed commands append nothing and leave the state unchanged. -/
def submit (c : Command) (s : Session) : Except GameError Session :=
  if s.projected.gameOver then .error .gameOver
  else (commandEvents s.projected c).map (push s)

/-- Modelled from the spec: drainRandomEvents returns the events
produced since the last drain and consumes them. -/
def drainRandomEvents (s : Session) : List RandomEventOut × Session :=
  (s.pending, { s with pending := [] })

def getCurrentTurn (s : Session) : Nat := s.projected.turn

def isGameOver (s : Session) : Bool := s.projected.gameOver

def getWinner (s : Session) : Option Winner := s.projected.winner

/-- Initial port: 2 berths and 2 cranes of baseline speed 1, score 0
(the defaults asserted by the end-to-end tests). -/
def initialPort : PortState :=
  { ships := [],
    berths := [⟨0, true, none⟩, ⟨1, true, none⟩],
    cranes := [⟨0, true, none, 1⟩, ⟨1, true, none, 1⟩],
    score := 0,
    next_id := 0 }

def initialProj : ProjState :=
  { port0 := initialPort, port1 := initialPort, turn := 0,
    effects := [], gameOver := false, winner := none }

def initialSession : Session :=
  { projected := initialProj, log := [], pending := [] }

/-- Run a command sequence, stopping at the first error. -/
def runCmds (cs : List Command) (s : Session) : Except GameError Session :=
  match cs with
  | [] => .ok s
  | c :: rest =>
    match submit c s with
    | .ok s' => runCmds rest s'
    | .error e => .error e

/-- Sessions reachable from match start through commands and drains. -/
inductive Reachable : Session → Prop
  | init : Reachable initialSession
  | step {s : Session} {c : Command} {s' : Session} :
      Reachable s → submit c s = .ok s' → Reachable s'
  | drain {s : Session} : Reachable s → Reachable (drainRandomEvents s).2

def encodeKind : EventKind → Nat
  | .storm => 0
  | .goodWeather => 1
  | .craneBreakdown => 2
  | .rushHour => 3
  | .customsInspection => 4

def decodeKind : Nat → Option EventKind
  | 0 => some .storm
  | 1 => some .goodWeather
  | 2 => some .craneBreakdown
  | 3 => some .rushHour
  | 4 => some .customsInspection
  | _ => none

/-- One serialized record: an event tag followed by four numeric fields
(unused fields are padded with zeros). -/
def EventRecord : Type := Nat × Nat × Nat × Nat × Nat

/-- Modelled from the spec: serialized form of one event (a tagged
record of its numeric fields). -/
def encodeEvent : DomainEvent → EventRecord
  | .shipArrived p sid c t => (0, p, sid, c, t)
  | .shipDocked p sid bid => (1, p, sid, bid, 0)
  | .craneAssigned p cid sid => (2, p, cid, sid, 0)
  | .containersProcessed p sid a => (3, p, sid, a, 0)
  | .shipUndocked p sid => (4, p, sid, 0, 0)
  | .randomEventTriggered k turns => (5, encodeKind k, turns, 0, 0)
  | .effectExpired k => (6, encodeKind k, 0, 0, 0)
  | .turnEnded w0 w1 => (7, w0, w1, 0, 0)
  | .gameEnded => (8, 0, 0, 0, 0)

/-- Parse one serialized record; fails on an unknown tag or kind. -/
def decodeEvent : EventRecord → Option DomainEvent
  | (0, p, sid, c, t) => some (.shipArrived p sid c t)
  | (1, p, sid, bid, _) => some (.shipDocked p sid bid)
  | (2, p, cid, sid, _) => some (.craneAssigned p cid sid)
  | (3, p, sid, a, _) => some (.containersProcessed p sid a)
  | (4, p, sid, _, _) => some (.shipUndocked p sid)
  | (5, k, turns, _, _) =>
      match decodeKind k with
      | none => none
      | some kind => some (.randomEventTriggered kind turns)
  | (6, k, _, _, _) =>
      match decodeKind k with
      | none => none
      | some kind => some (.effectExpired kind)
  | (7, w0, w1, _, _) => some (.turnEnded w0 w1)
  | (8, _, _, _, _) => some (.gameEnded)
  | _ => none

/-- Serialization of the full event log (exportLog). -/
def encodeLog (l : List DomainEvent) : List EventRecord :=
  l.map encodeEvent

/-- Modelled from the spec: importLog parses the serialized form and
fails on malformed input. -/
def decodeLog : List EventRecord → Option (List DomainEvent)
  | [] => some []
  | r :: rest =>
      match decodeEvent r, decodeLog rest with
      | some e, some es => some (e :: es)
      | _, _ => none

/-- Modelled from the spec: exportReplay serializes the full event log. -/
def exportReplay (s : Session) : List EventRecord :=
  encodeLog s.log

/-- Modelled from the spec: importReplay rebuilds a session by replaying
the imported events from the initial state, failing with FormatError on
malformed input. -/
def importReplay (data : List EventRecord) : Except GameError Session :=
  match decodeLog data with
  | none => .error .formatError
  | some l => .ok { projected := applyEvents initialProj l, log := l, pending := [] }

/-- Modelled from the spec: a root child of the MCTS tree — visit count,
accumulated reward, its action and its index in the enumeration order. -/
structure MCTSChild where
  action_index : Nat
  visits : Nat
  total_reward : Int
  action : AIAction
deriving DecidableEq

/-- Average reward of a root child (0 when unvisited). -/
def avgReward (c : MCTSChild) : ℚ :=
  if c.visits = 0 then 0 else (c.total_reward : ℚ) / (c.visits : ℚ)

/-- Modelled from the spec: the strict preference between root children —
higher visit count, ties broken by higher average reward, then by lower
action index. -/
def moreRobust (a b : MCTSChild) : Bool :=
  decide (b.visits < a.visits ∨
    (a.visits = b.visits ∧ (avgReward b < avgReward a ∨
      (avgReward a = avgReward b ∧ a.action_index < b.action_index))))

def pickChild (b c : MCTSChild) : MCTSChild :=
  if moreRobust c b then c else b

def bestChild (h : MCTSChild) (t : List MCTSChild) : MCTSChild :=
  t.foldl pickChild h

/-- Modelled from the spec: after the simulation budget, the engine
returns the most robust root child's action, or PassTurn when no legal
action exists at the root. -/
def bestAction : List MCTSChild → AIAction
  | [] => .passTurn
  | h :: t => (bestChild h t).action

/-- A recorded call into the WASM backend. -/
inductive WasmCall
  | dockShipCall (arg1 arg2 : Nat)
deriving DecidableEq

/-- Embedding of Berth.handleDrop (Berth component): when an onDropShip
callback is wired and the berth is free, the callback is invoked once
with the dragged ship's id first and the berth's id second; the returned
list records the argument pairs of the invocations. -/
def berthHandleDrop (hasCallback berthIsFree : Bool) (berthId shipId : Nat) :
    List (Nat × Nat) :=
  if hasCallback && berthIsFree then [(shipId, berthId)] else []

/-- Embedding of useGame.dockShip (useGame hook): it forwards its two
arguments to WasmGame.dockShip in the same order (shipId, berthId). -/
def useGameDockShip (shipId berthId : Nat) : List WasmCall :=
  [WasmCall.dockShipCall shipId berthId]

/-- Composition of the drop handler with the hook action, as wired
through the Port component (onDropShip := onDockShip := dockShip):
the WASM calls triggered by one drop gesture. -/
def dropInvocations (hasCallback berthIsFree : Bool) (berthId shipId : Nat) :
    List WasmCall :=
  match berthHandleDrop hasCallback berthIsFree berthId shipId with
  | [] => []
  | pr :: rest =>
      useGameDockShip pr.1 pr.2 ++
        (rest.map fun q => WasmCall.dockShipCall q.1 q.2)

/-- The two container fields the Ship component reads. -/
structure ShipView where
  containers : Nat
  containers_remaining : Nat
deriving DecidableEq

/-- Recognizer for TurnEnded events. -/
def isTurnEnded : DomainEvent → Bool
  | .turnEnded _ _ => true
  | _ => false

/-- Recognizer for GameEnded events. -/
def isGameEnded : DomainEvent → Bool
  | .gameEnded => true
  | _ => false

/-- Recognizer for RandomEventTriggered events (a random draw). -/
def isDraw : DomainEvent → Bool
  | .randomEventTriggered _ _ => true
  | _ => false

/-- Recognizer for ShipArrived events of a given port (a ship spawn). -/
def isArrivalAt (p : Nat) : DomainEvent → Bool
  | .shipArrived q _ _ _ => q == p
  | _ => false

/-- A session with one waiting ship in the human port (used to
instantiate hypothesis-bearing theorems at a concrete input). -/
def shipSession : Session :=
  push initialSession [DomainEvent.shipArrived 0 0 50 0]

/-- A session in which berth 0 of the human port is occupied by ship 0
(used to instantiate hypothesis-bearing theorems at a concrete input). -/
def occSession : Session :=
  push initialSession [DomainEvent.shipArrived 0 0 50 0, DomainEvent.shipDocked 0 0 0]

/-- Embedding of the progress computation of the Ship component:
((containers - containers_remaining) / containers) * 100, evaluated in
exact arithmetic. -/
def shipProgress (s : ShipView) : ℚ :=
  ((s.containers : ℚ) - (s.containers_remaining : ℚ)) / (s.containers : ℚ) * 100

theorem applyEvents_append (st : ProjState) (l1 l2 : List DomainEvent) :
    applyEvents st (l1 ++ l2) = applyEvents (applyEvents st l1) l2 := by
  simp [applyEvents, List.foldl_append]

theorem applyEvents_cons (st : ProjState) (e : DomainEvent) (es : List DomainEvent) :
    applyEvents st (e :: es) = applyEvents (applyEvent st e) es := rfl

theorem push_projected (s : Session) (es : List DomainEvent) :
    (push s es).projected = applyEvents s.projected es := rfl

theorem push_log (s : Session) (es : List DomainEvent) :
    (push s es).log = s.log ++ es := rfl

theorem applyToPort_turn (st : ProjState) (p : Nat) (f : PortState → PortState) :
    (applyToPort st p f).turn = st.turn := by
  unfold applyToPort
  by_cases h0 : p = 0 <;> by_cases h1 : p = 1 <;> simp [h0, h1]

theorem applyToPort_gameOver (st : ProjState) (p : Nat) (f : PortState → PortState) :
    (applyToPort st p f).gameOver = st.gameOver := by
  unfold applyToPort
  by_cases h0 : p = 0 <;> by_cases h1 : p = 1 <;> simp [h0, h1]

theorem applyToPort_port0 (st : ProjState) (p : Nat) (f : PortState → PortState) :
    (applyToPort st p f).port0 = if p = 0 then f st.port0 else st.port0 := by
  unfold applyToPort
  by_cases h0 : p = 0 <;> by_cases h1 : p = 1 <;> simp [h0, h1]

theorem applyToPort_port1 (st : ProjState) (p : Nat) (f : PortState → PortState) :
    (applyToPort st p f).port1 = if p = 1 then f st.port1 else st.port1 := by
  unfold applyToPort
  by_cases h0 : p = 0 <;> by_cases h1 : p = 1 <;> simp [h0, h1]

theorem applyEvent_turn (st : ProjState) (e : DomainEvent) :
    (applyEvent st e).turn = if isTurnEnded e then st.turn + 1 else st.turn := by
  cases e <;> simp [applyEvent, isTurnEnded, applyToPort_turn]

theorem applyEvent_gameOver (st : ProjState) (e : DomainEvent) :
    (applyEvent st e).gameOver = (st.gameOver || isGameEnded e) := by
  cases e <;> simp [applyEvent, isGameEnded, applyToPort_gameOver]

theorem applyEvents_turn (st : ProjState) (es : List DomainEvent) :
    (applyEvents st es).turn = st.turn + es.countP isTurnEnded := by
  induction es generalizing st with
  | nil => rfl
  | cons e es ih =>
      rw [applyEvents_cons, List.countP_cons, ih, applyEvent_turn]
      by_cases h : isTurnEnded e
      · simp [h]
        omega
      · simp [h]

theorem applyEvents_gameOver (st : ProjState) (es : List DomainEvent) :
    (applyEvents st es).gameOver = (st.gameOver || es.any isGameEnded) := by
  induction es generalizing st with
  | nil => simp [applyEvents]
  | cons e es ih =>
      rw [applyEvents_cons, ih, applyEvent_gameOver, List.any_cons]
      by_cases h : isGameEnded e <;> simp [h]

theorem countP_zero_of_false {pred : DomainEvent → Bool} {l : List DomainEvent}
    (h : ∀ e ∈ l, pred e = false) : l.countP pred = 0 := by
  induction l with
  | nil => rfl
  | cons a l ih =>
      rw [List.countP_cons, h a (by simp), ih (fun e he => h e (by simp [he]))]
      simp

theorem any_false_of_false {pred : DomainEvent → Bool} {l : List DomainEvent}
    (h : ∀ e ∈ l, pred e = false) : l.any pred = false := by
  induction l with
  | nil => rfl
  | cons a l ih =>
      rw [List.any_cons, h a (by simp), ih (fun e he => h e (by simp [he]))]
      rfl

theorem shipProcEvents_mem {p eff : Nat} {port : PortState} {sh : Ship} {e : DomainEvent}
    (h : e ∈ shipProcEvents p eff port sh) :
    (∃ sid a, e = DomainEvent.containersProcessed p sid a) ∨
      ∃ sid, e = DomainEvent.shipUndocked p sid := by
  unfold shipProcEvents at h
  split at h
  · rcases List.mem_cons.mp h with rfl | h2
    · exact .inl ⟨_, _, rfl⟩
    · split at h2
      · rcases List.mem_singleton.mp h2 with rfl
        exact .inr ⟨_, rfl⟩
      · cases h2
  · cases h

theorem procEventsAux_mem {p eff : Nat} {port : PortState} {ships : List Ship}
    {e : DomainEvent} (h : e ∈ procEventsAux p eff port ships) :
    (∃ sid a, e = DomainEvent.containersProcessed p sid a) ∨
      ∃ sid, e = DomainEvent.shipUndocked p sid := by
  induction ships with
  | nil => cases h
  | cons sh rest ih =>
      rcases List.mem_append.mp h with h1 | h1
      · exact shipProcEvents_mem h1
      · exact ih h1

theorem dockEventsP_ok {p : Nat} {st : ProjState} {sid bid : Nat} {es : List DomainEvent}
    (h : dockEventsP p st sid bid = .ok es) : es = [DomainEvent.shipDocked p sid bid] := by
  unfold dockEventsP at h
  cases hc : dockCheck (portOf st p) sid bid <;> rw [hc] at h <;>
    simp [Except.map] at h
  exact h.symm

theorem assignEventsP_ok {p : Nat} {st : ProjState} {cid sid : Nat} {es : List DomainEvent}
    (h : assignEventsP p st cid sid = .ok es) : es = [DomainEvent.craneAssigned p cid sid] := by
  unfold assignEventsP at h
  cases hc : assignCheck (portOf st p) cid sid <;> rw [hc] at h <;>
    simp [Except.map] at h
  exact h.symm

theorem aiEvents_mem {st : ProjState} {a : AIAction} {e : DomainEvent}
    (h : e ∈ aiEvents st a) :
    (∃ sid bid, e = DomainEvent.shipDocked 1 sid bid) ∨
      ∃ cid sid, e = DomainEvent.craneAssigned 1 cid sid := by
  cases a with
  | dock sid bid =>
      simp only [aiEvents] at h
      split at h
      · next es heq =>
          rw [dockEventsP_ok heq] at h
          rcases List.mem_singleton.mp h with rfl
          exact .inl ⟨_, _, rfl⟩
      · cases h
  | assign cid sid =>
      simp only [aiEvents] at h
      split at h
      · next es heq =>
          rw [assignEventsP_ok heq] at h
          rcases List.mem_singleton.mp h with rfl
          exact .inr ⟨_, _, rfl⟩
      · cases h
  | passTurn => cases h

theorem arrivalsFrom_mem {p nid atime : Nat} {loads : List Nat} {e : DomainEvent}
    (h : e ∈ arrivalsFrom p nid atime loads) :
    ∃ sid c, e = DomainEvent.shipArrived p sid c atime := by
  induction loads generalizing nid with
  | nil => cases h
  | cons l ls ih =>
      rcases List.mem_cons.mp h with rfl | h1
      · exact ⟨_, _, rfl⟩
      · exact ih h1

theorem spawnAuto_mem {st : ProjState} {loads : Nat × Nat} {e : DomainEvent}
    (h : e ∈ spawnAuto st loads) :
    ∃ q sid c t, e = DomainEvent.shipArrived q sid c t := by
  unfold spawnAuto at h
  split at h
  · rcases List.mem_append.mp h with h1 | h1
    · obtain ⟨sid, c, rfl⟩ := arrivalsFrom_mem h1
      exact ⟨_, _, _, _, rfl⟩
    · obtain ⟨sid, c, rfl⟩ := arrivalsFrom_mem h1
      exact ⟨_, _, _, _, rfl⟩
  · cases h

theorem expiredEvents_mem {effs : List ActiveEffect} {e : DomainEvent}
    (h : e ∈ expiredEvents effs) : ∃ k, e = DomainEvent.effectExpired k := by
  unfold expiredEvents at h
  rcases List.mem_filterMap.mp h with ⟨a, _, ha⟩
  split at ha
  · cases ha
    exact ⟨_, rfl⟩
  · cases ha

theorem endedEvents_mem {st : ProjState} {e : DomainEvent}
    (h : e ∈ endedEvents st) : e = DomainEvent.gameEnded := by
  unfold endedEvents at h
  split at h
  · exact List.mem_singleton.mp h
  · cases h

theorem drawEvents_mem {st : ProjState} {d : Option Draw} {e : DomainEvent}
    (h : e ∈ drawEvents st d) :
    (∃ k t, e = DomainEvent.randomEventTriggered k t) ∨
      ∃ q sid c t, e = DomainEvent.shipArrived q sid c t := by
  cases d with
  | none => cases h
  | some dr =>
      rcases List.mem_cons.mp h with rfl | h1
      · exact .inl ⟨_, _, rfl⟩
      · right
        split at h1
        · rcases List.mem_cons.mp h1 with rfl | h2
          · exact ⟨_, _, _, _, rfl⟩
          · rcases List.mem_singleton.mp h2 with rfl
            exact ⟨_, _, _, _, rfl⟩
        · cases h1

theorem procEvents_no_turn (st : ProjState) (p : Nat) :
    (procEvents st p).countP isTurnEnded = 0 := by
  apply countP_zero_of_false
  intro e he
  rcases procEventsAux_mem he with ⟨sid, a, rfl⟩ | ⟨sid, rfl⟩ <;> rfl

theorem aiEvents_no_turn (st : ProjState) (a : AIAction) :
    (aiEvents st a).countP isTurnEnded = 0 := by
  apply countP_zero_of_false
  intro e he
  rcases aiEvents_mem he with ⟨sid, bid, rfl⟩ | ⟨cid, sid, rfl⟩ <;> rfl

theorem spawnAuto_no_turn (st : ProjState) (loads : Nat × Nat) :
    (spawnAuto st loads).countP isTurnEnded = 0 := by
  apply countP_zero_of_false
  intro e he
  obtain ⟨q, sid, c, t, rfl⟩ := spawnAuto_mem he
  rfl

theorem etS1_turn (st : ProjState) : (etS1 st).turn = st.turn := by
  rw [etS1, applyEvents_turn, etE1, procEvents_no_turn]
  omega

theorem etS2_turn (st : ProjState) (ai : AIAction) : (etS2 st ai).turn = st.turn := by
  rw [etS2, applyEvents_turn, etE2, aiEvents_no_turn, etS1_turn]
  omega

theorem etS3_turn (st : ProjState) (ai : AIAction) : (etS3 st ai).turn = st.turn := by
  rw [etS3, applyEvents_turn, etE3, procEvents_no_turn, etS2_turn]
  omega

theorem etS4_turn (st : ProjState) (ai : AIAction) (loads : Nat × Nat) :
    (etS4 st ai loads).turn = st.turn := by
  rw [etS4, applyEvents_turn, etE4, spawnAuto_no_turn, etS3_turn]
  omega

theorem endTurnEvents_countP_turnEnded (st : ProjState) (ai : AIAction)
    (d : Option Draw) (loads : Nat × Nat) :
    (endTurnEvents st ai d loads).countP isTurnEnded = 1 := by
  unfold endTurnEvents
  rw [List.countP_append, List.countP_append, List.countP_append, List.countP_append,
    List.countP_append, List.countP_append, List.countP_append]
  rw [etE1, procEvents_no_turn, etE2, aiEvents_no_turn, etE3, procEvents_no_turn,
    etE4, spawnAuto_no_turn]
  have hx : (expiredEvents (etS4 st ai loads).effects).countP isTurnEnded = 0 := by
    apply countP_zero_of_false
    intro e he
    obtain ⟨k, rfl⟩ := expiredEvents_mem he
    rfl
  have hd : (drawEvents (etS4 st ai loads) d).countP isTurnEnded = 0 := by
    apply countP_zero_of_false
    intro e he
    rcases drawEvents_mem he with ⟨k, t, rfl⟩ | ⟨q, sid, c, t, rfl⟩ <;> rfl
  have hg : (endedEvents (etS4 st ai loads)).countP isTurnEnded = 0 := by
    apply countP_zero_of_false
    intro e he
    rw [endedEvents_mem he]
    rfl
  rw [hx, hd, hg]
  rfl

theorem endTurn_turn (st : ProjState) (ai : AIAction) (d : Option Draw)
    (loads : Nat × Nat) :
    (applyEvents st (endTurnEvents st ai d loads)).turn = st.turn + 1 := by
  rw [applyEvents_turn, endTurnEvents_countP_turnEnded]

theorem endTurnEvents_any_gameEnded (st : ProjState) (ai : AIAction)
    (d : Option Draw) (loads : Nat × Nat) :
    (endTurnEvents st ai d loads).any isGameEnded = decide (10 ≤ st.turn + 1) := by
  unfold endTurnEvents
  rw [List.any_append, List.any_append, List.any_append, List.any_append,
    List.any_append, List.any_append, List.any_append]
  have h1 : (etE1 st).any isGameEnded = false := by
    apply any_false_of_false
    intro e he
    rcases procEventsAux_mem he with ⟨sid, a, rfl⟩ | ⟨sid, rfl⟩ <;> rfl
  have h2 : (etE2 st ai).any isGameEnded = false := by
    apply any_false_of_false
    intro e he
    rcases aiEvents_mem he with ⟨sid, bid, rfl⟩ | ⟨cid, sid, rfl⟩ <;> rfl
  have h3 : (etE3 st ai).any isGameEnded = false := by
    apply any_false_of_false
    intro e he
    rcases procEventsAux_mem he with ⟨sid, a, rfl⟩ | ⟨sid, rfl⟩ <;> rfl
  have h4 : (etE4 st ai loads).any isGameEnded = false := by
    apply any_false_of_false
    intro e he
    obtain ⟨q, sid, c, t, rfl⟩ := spawnAuto_mem he
    rfl
  have hx : (expiredEvents (etS4 st ai loads).effects).any isGameEnded = false := by
    apply any_false_of_false
    intro e he
    obtain ⟨k, rfl⟩ := expiredEvents_mem he
    rfl
  have hd : (drawEvents (etS4 st ai loads) d).any isGameEnded = false := by
    apply any_false_of_false
    intro e he
    rcases drawEvents_mem he with ⟨k, t, rfl⟩ | ⟨q, sid, c, t, rfl⟩ <;> rfl
  have hg : (endedEvents (etS4 st ai loads)).any isGameEnded =
      decide (10 ≤ st.turn + 1) := by
    unfold endedEvents
    rw [etS4_turn]
    by_cases h : 10 ≤ st.turn + 1 <;> simp [h, isGameEnded]
  rw [h1, h2, h3, h4, hx, hd, hg]
  simp [isTurnEnded, isGameEnded]

theorem endTurn_gameOver (st : ProjState) (ai : AIAction) (d : Option Draw)
    (loads : Nat × Nat) :
    (applyEvents st (endTurnEvents st ai d loads)).gameOver =
      (st.gameOver || decide (10 ≤ st.turn + 1)) := by
  rw [applyEvents_gameOver, endTurnEvents_any_gameEnded]

theorem submit_ok_inv {c : Command} {s s' : Session} (h : submit c s = .ok s') :
    s.projected.gameOver = false ∧
      ∃ es, commandEvents s.projected c = .ok es ∧ s' = push s es := by
  unfold submit at h
  split at h
  · cases h
  · next hg =>
      refine ⟨by simpa using hg, ?_⟩
      cases hc : commandEvents s.projected c <;> rw [hc] at h <;>
        simp [Except.map] at h
      exact ⟨_, rfl, h.symm⟩

theorem arriveApply_score (port : PortState) (sid c t : Nat) :
    (arriveApply port sid c t).score = port.score := rfl

theorem dockApply_score (port : PortState) (sid bid : Nat) :
    (dockApply port sid bid).score = port.score := rfl

theorem assignApply_score (port : PortState) (cid sid : Nat) :
    (assignApply port cid sid).score = port.score := rfl

theorem undockApply_score (port : PortState) (sid : Nat) :
    (undockApply port sid).score = port.score := by
  unfold undockApply
  cases lookupShip port sid <;> rfl

theorem processApply_score (port : PortState) (sid a : Nat) :
    (processApply port sid a).score = port.score ∨
      (processApply port sid a).score = port.score + 10 * a := by
  unfold processApply
  cases lookupShip port sid with
  | none => exact .inl rfl
  | some sh =>
      simp only
      split
      · exact .inr rfl
      · exact .inl rfl

/-- C6: a Port's score changes only by the two documented rules: +10 per
container unloaded this turn when a ship finishes (the ContainersProcessed
event that empties the ship), and −5 per still-waiting ship per turn (the
TurnEnded event carrying the waiting counts); every other event of the
system leaves both scores unchanged. -/
theorem c6_score_changes_only_by_rules (st : ProjState) (e : DomainEvent) :
    ((applyEvent st e).port0.score ≠ st.port0.score →
      (∃ sid a, e = DomainEvent.containersProcessed 0 sid a ∧
        (applyEvent st e).port0.score = st.port0.score + 10 * a) ∨
      (∃ w0 w1, e = DomainEvent.turnEnded w0 w1 ∧
        (applyEvent st e).port0.score = st.port0.score - 5 * w0)) ∧
    ((applyEvent st e).port1.score ≠ st.port1.score →
      (∃ sid a, e = DomainEvent.containersProcessed 1 sid a ∧
        (applyEvent st e).port1.score = st.port1.score + 10 * a) ∨
      (∃ w0 w1, e = DomainEvent.turnEnded w0 w1 ∧
        (applyEvent st e).port1.score = st.port1.score - 5 * w1)) := by
  constructor
  · intro hne
    cases e with
    | shipArrived p sid c t =>
        rw [applyEvent, applyToPort_port0] at hne
        split at hne
        · rw [arriveApply_score] at hne
          exact absurd rfl hne
        · exact absurd rfl hne
    | shipDocked p sid bid =>
        rw [applyEvent, applyToPort_port0] at hne
        split at hne
        · rw [dockApply_score] at hne
          exact absurd rfl hne
        · exact absurd rfl hne
    | craneAssigned p cid sid =>
        rw [applyEvent, applyToPort_port0] at hne
        split at hne
        · rw [assignApply_score] at hne
          exact absurd rfl hne
        · exact absurd rfl hne
    | containersProcessed p sid a =>
        left
        rw [applyEvent, applyToPort_port0] at hne ⊢
        split at hne
        · next hp =>
            rcases processApply_score st.port0 sid a with hs | hs
            · rw [hs] at hne
              exact absurd rfl hne
            · subst hp
              refine ⟨sid, a, rfl, ?_⟩
              rw [if_pos rfl, hs]
        · exact absurd rfl hne
    | shipUndocked p sid =>
        rw [applyEvent, applyToPort_port0] at hne
        split at hne
        · rw [undockApply_score] at hne
          exact absurd rfl hne
        · exact absurd rfl hne
    | randomEventTriggered k t => exact absurd rfl hne
    | effectExpired k => exact absurd rfl hne
    | turnEnded w0 w1 => exact .inr ⟨w0, w1, rfl, rfl⟩
    | gameEnded => exact absurd rfl hne
  · intro hne
    cases e with
    | shipArrived p sid c t =>
        rw [applyEvent, applyToPort_port1] at hne
        split at hne
        · rw [arriveApply_score] at hne
          exact absurd rfl hne
        · exact absurd rfl hne
    | shipDocked p sid bid =>
        rw [applyEvent, applyToPort_port1] at hne
        split at hne
        · rw [dockApply_score] at hne
          exact absurd rfl hne
        · exact absurd rfl hne
    | craneAssigned p cid sid =>
        rw [applyEvent, applyToPort_port1] at hne
        split at hne
        · rw [assignApply_score] at hne
          exact absurd rfl hne
        · exact absurd rfl hne
    | containersProcessed p sid a =>
        left
        rw [applyEvent, applyToPort_port1] at hne ⊢
        split at hne
        · next hp =>
            rcases processApply_score st.port1 sid a with hs | hs
            · rw [hs] at hne
              exact absurd rfl hne
            · subst hp
              refine ⟨sid, a, rfl, ?_⟩
              rw [if_pos rfl, hs]
        · exact absurd rfl hne
    | shipUndocked p sid =>
        rw [applyEvent, applyToPort_port1] at hne
        split at hne
        · rw [undockApply_score] at hne
          exact absurd rfl hne
        · exact absurd rfl hne
    | randomEventTriggered k t => exact absurd rfl hne
    | effectExpired k => exact absurd rfl hne
    | turnEnded w0 w1 => exact .inr ⟨w0, w1, rfl, rfl⟩
    | gameEnded => exact absurd rfl hne

theorem c6_witness :
    (∃ sid a, (DomainEvent.turnEnded 1 0) = DomainEvent.containersProcessed 0 sid a ∧
      (applyEvent initialProj (DomainEvent.turnEnded 1 0)).port0.score =
        initialProj.port0.score + 10 * a) ∨
    (∃ w0 w1, (DomainEvent.turnEnded 1 0) = DomainEvent.turnEnded w0 w1 ∧
      (applyEvent initialProj (DomainEvent.turnEnded 1 0)).port0.score =
        initialProj.port0.score - 5 * w0) :=
  (c6_score_changes_only_by_rules initialProj (DomainEvent.turnEnded 1 0)).1 (by decide)

theorem arrivalsFrom_no_turn (p nid t : Nat) (loads : List Nat) :
    (arrivalsFrom p nid t loads).countP isTurnEnded = 0 := by
  apply countP_zero_of_false
  intro e he
  obtain ⟨sid, c, rfl⟩ := arrivalsFrom_mem he
  rfl

theorem arrivalsFrom_no_end (p nid t : Nat) (loads : List Nat) :
    (arrivalsFrom p nid t loads).any isGameEnded = false := by
  apply any_false_of_false
  intro e he
  obtain ⟨sid, c, rfl⟩ := arrivalsFrom_mem he
  rfl

theorem reach_gameOver {s : Session} (h : Reachable s) :
    s.projected.gameOver = decide (10 ≤ s.projected.turn) := by
  induction h with
  | init => rfl
  | @step s c s' hr hok ih =>
      obtain ⟨hg, es, hce, rfl⟩ := submit_ok_inv hok
      rw [hg] at ih
      have hP : ¬ (10 ≤ s.projected.turn) := of_decide_eq_false ih.symm
      cases c with
      | dockShip sid bid =>
          simp only [commandEvents] at hce
          obtain rfl := dockEventsP_ok hce
          have h2 : (push s [DomainEvent.shipDocked 0 sid bid]).projected.gameOver = false := by
            rw [push_projected, applyEvents_gameOver, hg]
            rfl
          have h3 : (push s [DomainEvent.shipDocked 0 sid bid]).projected.turn =
              s.projected.turn := by
            rw [push_projected, applyEvents_turn]
            rfl
          rw [h2, h3, eq_comm, decide_eq_false_iff_not]
          exact hP
      | assignCrane cid sid =>
          simp only [commandEvents] at hce
          obtain rfl := assignEventsP_ok hce
          have h2 : (push s [DomainEvent.craneAssigned 0 cid sid]).projected.gameOver = false := by
            rw [push_projected, applyEvents_gameOver, hg]
            rfl
          have h3 : (push s [DomainEvent.craneAssigned 0 cid sid]).projected.turn =
              s.projected.turn := by
            rw [push_projected, applyEvents_turn]
            rfl
          rw [h2, h3, eq_comm, decide_eq_false_iff_not]
          exact hP
      | spawnShips loads =>
          simp only [commandEvents] at hce
          obtain rfl := (Except.ok.inj hce)
          have h2 : (push s (arrivalsFrom 0 s.projected.port0.next_id s.projected.turn loads)).projected.gameOver = false := by
            rw [push_projected, applyEvents_gameOver, hg, arrivalsFrom_no_end]
            rfl
          have h3 : (push s (arrivalsFrom 0 s.projected.port0.next_id s.projected.turn loads)).projected.turn =
              s.projected.turn := by
            rw [push_projected, applyEvents_turn, arrivalsFrom_no_turn]
            omega
          rw [h2, h3, eq_comm, decide_eq_false_iff_not]
          exact hP
      | endTurn ai d loads =>
          simp only [commandEvents] at hce
          obtain rfl := (Except.ok.inj hce)
          rw [push_projected, endTurn_gameOver, endTurn_turn, hg]
          simp
  | drain hr ih => exact ih

theorem decodeKind_encodeKind (k : EventKind) : decodeKind (encodeKind k) = some k := by
  cases k <;> rfl

theorem decodeEvent_encodeEvent (e : DomainEvent) :
    decodeEvent (encodeEvent e) = some e := by
  cases e with
  | randomEventTriggered k t =>
      show (match decodeKind (encodeKind k) with
        | none => none
        | some kind => some (DomainEvent.randomEventTriggered kind t)) = _
      rw [decodeKind_encodeKind]
  | effectExpired k =>
      show (match decodeKind (encodeKind k) with
        | none => none
        | some kind => some (DomainEvent.effectExpired kind)) = _
      rw [decodeKind_encodeKind]
  | _ => rfl

theorem decode_encode (l : List DomainEvent) : decodeLog (encodeLog l) = some l := by
  induction l with
  | nil => rfl
  | cons e es ih =>
      show (match decodeEvent (encodeEvent e), decodeLog (encodeLog es) with
        | some e, some es => some (e :: es)
        | _, _ => none) = _
      rw [decodeEvent_encodeEvent, ih]

theorem replay_log {s : Session} (h : Reachable s) :
    applyEvents initialProj s.log = s.projected := by
  induction h with
  | init => rfl
  | @step s c s' hr hok ih =>
      obtain ⟨hg, es, hce, rfl⟩ := submit_ok_inv hok
      rw [push_log, push_projected, applyEvents_append, ih]
  | drain hr ih => exact ih

/-- C2: the turn counter never decreases under any successfully submitted
command; a reachable session is in GameOver exactly when the shared
counter has reached 10 (never earlier); and once in GameOver every
subsequently submitted command is rejected with GameOverError. -/
theorem c2_turn_monotone_gameover_at_ten (s : Session) (hr : Reachable s) :
    (∀ c s', submit c s = .ok s' → s.projected.turn ≤ s'.projected.turn) ∧
      (s.projected.gameOver = true ↔ 10 ≤ s.projected.turn) ∧
      (s.projected.gameOver = true →
        ∀ c, submit c s = .error .gameOver) := by
  refine ⟨?_, ?_, ?_⟩
  · intro c s' hok
    obtain ⟨hg, es, hce, rfl⟩ := submit_ok_inv hok
    rw [push_projected, applyEvents_turn]
    omega
  · rw [reach_gameOver hr]
    simp
  · intro hgo c
    unfold submit
    rw [hgo]
    rfl

theorem c2_witness :
    initialSession.projected.gameOver = true ↔ 10 ≤ initialSession.projected.turn :=
  (c2_turn_monotone_gameover_at_ten initialSession Reachable.init).2.1

/-- C4: for every reachable session, importReplay (exportReplay s)
succeeds and yields a session whose two Port states and turn counter are
identical to the original's — the event log round-trips through
serialization and replay. -/
theorem c4_replay_roundtrip (s : Session) (hr : Reachable s) :
    ∃ s', importReplay (exportReplay s) = .ok s' ∧
      s'.projected.port0 = s.projected.port0 ∧
      s'.projected.port1 = s.projected.port1 ∧
      s'.projected.turn = s.projected.turn := by
  refine ⟨{ projected := applyEvents initialProj s.log, log := s.log, pending := [] },
    ?_, ?_, ?_, ?_⟩
  · unfold importReplay exportReplay
    rw [decode_encode]
  · rw [replay_log hr]
  · rw [replay_log hr]
  · rw [replay_log hr]

theorem c4_witness :
    ∃ s', importReplay (exportReplay initialSession) = .ok s' ∧
      s'.projected.port0 = initialSession.projected.port0 ∧
      s'.projected.port1 = initialSession.projected.port1 ∧
      s'.projected.turn = initialSession.projected.turn :=
  c4_replay_roundtrip initialSession Reachable.init

/-- C5: when berth B of the human port is not free and the session is
still active, DockShip(shipId, B) fails with the Occupied error, no event
is appended and the session state is unchanged — submit returns no
successor session, so the caller keeps the original one (atomic
failure). -/
theorem c5_dock_occupied_atomic (s : Session) (sid bid : Nat) (b : Berth)
    (hg : s.projected.gameOver = false)
    (hb : lookupBerth s.projected.port0 bid = some b)
    (hfree : b.is_free = false) :
    submit (Command.dockShip sid bid) s = .error .occupied ∧
      ∀ s', submit (Command.dockShip sid bid) s ≠ .ok s' := by
  have hcheck : dockCheck s.projected.port0 sid bid = Except.error GameError.occupied := by
    unfold dockCheck
    rw [hb]
    simp [hfree]
  have hmain : submit (Command.dockShip sid bid) s = .error .occupied := by
    unfold submit
    rw [hg]
    simp only [Bool.false_eq_true, if_false, commandEvents]
    unfold dockEventsP
    rw [show portOf s.projected 0 = s.projected.port0 from rfl, hcheck]
    rfl
  exact ⟨hmain, fun s' hok => by rw [hmain] at hok; cases hok⟩

theorem c5_witness :
    submit (Command.dockShip 1 0) occSession = .error .occupied ∧
      ∀ s', submit (Command.dockShip 1 0) occSession ≠ .ok s' :=
  c5_dock_occupied_atomic occSession 1 0 ⟨0, false, some 0⟩ (by rfl) (by rfl) (by rfl)

theorem procEvents_no_arrival (st : ProjState) (p q : Nat) :
    (procEvents st p).countP (isArrivalAt q) = 0 := by
  apply countP_zero_of_false
  intro e he
  rcases procEventsAux_mem he with ⟨sid, a, rfl⟩ | ⟨sid, rfl⟩ <;> rfl

theorem aiEvents_no_arrival (st : ProjState) (a : AIAction) (q : Nat) :
    (aiEvents st a).countP (isArrivalAt q) = 0 := by
  apply countP_zero_of_false
  intro e he
  rcases aiEvents_mem he with ⟨sid, bid, rfl⟩ | ⟨cid, sid, rfl⟩ <;> rfl

theorem expiredEvents_no_arrival (effs : List ActiveEffect) (q : Nat) :
    (expiredEvents effs).countP (isArrivalAt q) = 0 := by
  apply countP_zero_of_false
  intro e he
  obtain ⟨k, rfl⟩ := expiredEvents_mem he
  rfl

theorem endedEvents_no_arrival (st : ProjState) (q : Nat) :
    (endedEvents st).countP (isArrivalAt q) = 0 := by
  apply countP_zero_of_false
  intro e he
  rw [endedEvents_mem he]
  rfl

theorem arrivalsFrom_pair_count_same (p nid t l1 l2 : Nat) :
    (arrivalsFrom p nid t [l1, l2]).countP (isArrivalAt p) = 2 := by
  show (DomainEvent.shipArrived p nid l1 t ::
    DomainEvent.shipArrived p (nid + 1) l2 t :: []).countP (isArrivalAt p) = 2
  rw [List.countP_cons, List.countP_cons]
  simp [isArrivalAt]

theorem arrivalsFrom_count_ne (p q nid t : Nat) (loads : List Nat) (hpq : p ≠ q) :
    (arrivalsFrom p nid t loads).countP (isArrivalAt q) = 0 := by
  apply countP_zero_of_false
  intro e he
  obtain ⟨sid, c, rfl⟩ := arrivalsFrom_mem he
  simp [isArrivalAt, hpq]

theorem spawnAuto_count0 (st : ProjState) (loads : Nat × Nat) :
    (spawnAuto st loads).countP (isArrivalAt 0) =
      if (st.turn + 1) % 3 = 0 then 2 else 0 := by
  unfold spawnAuto
  by_cases h : (st.turn + 1) % 3 = 0 <;> simp [h]
  rw [arrivalsFrom_pair_count_same, arrivalsFrom_count_ne 1 0 _ _ _ (by omega)]

theorem spawnAuto_count1 (st : ProjState) (loads : Nat × Nat) :
    (spawnAuto st loads).countP (isArrivalAt 1) =
      if (st.turn + 1) % 3 = 0 then 2 else 0 := by
  unfold spawnAuto
  by_cases h : (st.turn + 1) % 3 = 0 <;> simp [h]
  rw [arrivalsFrom_pair_count_same, arrivalsFrom_count_ne 0 1 _ _ _ (by omega)]

/-- C1: during EndTurn with no random draw, exactly 2 ShipArrived events
are emitted for the human port, and symmetrically exactly 2 for the AI
port, precisely when the 1-indexed counter of the completing turn is
divisible by 3, and none on any other turn; concretely, running EndTurn
3 times from turn 0 with no manual spawns makes exactly 2 new ships
appear in the human port. -/
theorem c1_spawn_every_third_turn :
    (∀ (st : ProjState) (ai : AIAction) (loads : Nat × Nat),
      (endTurnEvents st ai none loads).countP (isArrivalAt 0) =
        if (st.turn + 1) % 3 = 0 then 2 else 0) ∧
    (∀ (st : ProjState) (ai : AIAction) (loads : Nat × Nat),
      (endTurnEvents st ai none loads).countP (isArrivalAt 1) =
        if (st.turn + 1) % 3 = 0 then 2 else 0) ∧
    (runCmds [Command.endTurn AIAction.passTurn none (50, 50),
        Command.endTurn AIAction.passTurn none (50, 50),
        Command.endTurn AIAction.passTurn none (50, 50)] initialSession).toOption.map
      (fun s => s.projected.port0.ships.length) = some 2 := by
  refine ⟨?_, ?_, by decide⟩
  · intro st ai loads
    unfold endTurnEvents
    simp only [List.countP_append]
    unfold etE1 etE2 etE3 etE4
    rw [procEvents_no_arrival, aiEvents_no_arrival, procEvents_no_arrival,
      spawnAuto_count0, expiredEvents_no_arrival, endedEvents_no_arrival, etS3_turn]
    simp [drawEvents, isArrivalAt]
  · intro st ai loads
    unfold endTurnEvents
    simp only [List.countP_append]
    unfold etE1 etE2 etE3 etE4
    rw [procEvents_no_arrival, aiEvents_no_arrival, procEvents_no_arrival,
      spawnAuto_count1, expiredEvents_no_arrival, endedEvents_no_arrival, etS3_turn]
    simp [drawEvents, isArrivalAt]

/-- C7: from turn 0, spawning 3 ships (loads 50 each), docking ship 0 at
berth 0, assigning crane 0 (speed 1, no active effects) and ending the
turn leaves ship 0 with 40 = 50 − 10 remaining containers: exactly 10
fewer, matching the documented per-turn reduction
sum(crane.processing_speed × active_effect_multiplier) at baseline. -/
theorem c7_single_crane_unloads_ten :
    (runCmds [Command.spawnShips [50, 50, 50], Command.dockShip 0 0,
        Command.assignCrane 0 0,
        Command.endTurn AIAction.passTurn none (50, 50)] initialSession).toOption.map
      (fun s => (lookupShip s.projected.port0 0).map
        fun sh => (sh.containers, sh.containers_remaining)) =
      some (some (50, 40)) := by
  decide

theorem procEvents_no_draw (st : ProjState) (p : Nat) :
    (procEvents st p).countP isDraw = 0 := by
  apply countP_zero_of_false
  intro e he
  rcases procEventsAux_mem he with ⟨sid, a, rfl⟩ | ⟨sid, rfl⟩ <;> rfl

theorem aiEvents_no_draw (st : ProjState) (a : AIAction) :
    (aiEvents st a).countP isDraw = 0 := by
  apply countP_zero_of_false
  intro e he
  rcases aiEvents_mem he with ⟨sid, bid, rfl⟩ | ⟨cid, sid, rfl⟩ <;> rfl

theorem spawnAuto_no_draw (st : ProjState) (loads : Nat × Nat) :
    (spawnAuto st loads).countP isDraw = 0 := by
  apply countP_zero_of_false
  intro e he
  obtain ⟨q, sid, c, t, rfl⟩ := spawnAuto_mem he
  rfl

theorem expiredEvents_no_draw (effs : List ActiveEffect) :
    (expiredEvents effs).countP isDraw = 0 := by
  apply countP_zero_of_false
  intro e he
  obtain ⟨k, rfl⟩ := expiredEvents_mem he
  rfl

theorem endedEvents_no_draw (st : ProjState) :
    (endedEvents st).countP isDraw = 0 := by
  apply countP_zero_of_false
  intro e he
  rw [endedEvents_mem he]
  rfl

theorem drawEvents_draw_count (st : ProjState) (d : Option Draw) :
    (drawEvents st d).countP isDraw = if d.isSome then 1 else 0 := by
  cases d with
  | none => rfl
  | some dr =>
      show (DomainEvent.randomEventTriggered dr.kind dr.turns ::
        (if dr.kind == EventKind.rushHour then
          [DomainEvent.shipArrived 0 st.port0.next_id 50 st.turn,
           DomainEvent.shipArrived 1 st.port1.next_id 50 st.turn]
        else [])).countP isDraw = 1
      rw [List.countP_cons]
      have hz : (if dr.kind == EventKind.rushHour then
          [DomainEvent.shipArrived 0 st.port0.next_id 50 st.turn,
           DomainEvent.shipArrived 1 st.port1.next_id 50 st.turn]
        else ([] : List DomainEvent)).countP isDraw = 0 := by
        split <;> rfl
      rw [hz]
      rfl

/-- C8: a random event is drawn at most once per turn, and only inside
EndTurn resolution: the event sequence of one EndTurn contains at most
one RandomEventTriggered (exactly the one of the per-turn draw), while
successful DockShip, AssignCrane and SpawnShips commands emit none, and
draining the random-event buffer touches neither the log nor the
projected state. -/
theorem c8_draw_only_in_endturn :
    (∀ (st : ProjState) (ai : AIAction) (d : Option Draw) (loads : Nat × Nat),
      (endTurnEvents st ai d loads).countP isDraw ≤ 1) ∧
    (∀ (st : ProjState) (sid bid : Nat) (es : List DomainEvent),
      dockEventsP 0 st sid bid = .ok es → es.countP isDraw = 0) ∧
    (∀ (st : ProjState) (cid sid : Nat) (es : List DomainEvent),
      assignEventsP 0 st cid sid = .ok es → es.countP isDraw = 0) ∧
    (∀ (st : ProjState) (loads : List Nat) (es : List DomainEvent),
      commandEvents st (Command.spawnShips loads) = .ok es → es.countP isDraw = 0) ∧
    (∀ s : Session, (drainRandomEvents s).2.log = s.log ∧
      (drainRandomEvents s).2.projected = s.projected) := by
  refine ⟨?_, ?_, ?_, ?_, fun s => ⟨rfl, rfl⟩⟩
  · intro st ai d loads
    unfold endTurnEvents
    simp only [List.countP_append]
    unfold etE1 etE2 etE3 etE4
    rw [procEvents_no_draw, aiEvents_no_draw, procEvents_no_draw, spawnAuto_no_draw,
      expiredEvents_no_draw, endedEvents_no_draw, drawEvents_draw_count]
    cases d <;> simp [isDraw]
  · intro st sid bid es h
    rw [dockEventsP_ok h]
    rfl
  · intro st cid sid es h
    rw [assignEventsP_ok h]
    rfl
  · intro st loads es h
    simp only [commandEvents] at h
    obtain rfl := Except.ok.inj h
    apply countP_zero_of_false
    intro e he
    obtain ⟨sid, c, rfl⟩ := arrivalsFrom_mem he
    rfl

theorem c8_witness :
    (([DomainEvent.shipDocked 0 0 0] : List DomainEvent)).countP isDraw = 0 :=
  c8_draw_only_in_endturn.2.1 shipSession.projected 0 0
    [DomainEvent.shipDocked 0 0 0] (by rfl)

theorem moreRobust_irrefl (a : MCTSChild) : moreRobust a a = false := by
  simp [moreRobust]

theorem moreRobust_trans {a b c : MCTSChild} (h1 : moreRobust a b = true)
    (h2 : moreRobust b c = true) : moreRobust a c = true := by
  simp only [moreRobust, decide_eq_true_eq] at h1 h2 ⊢
  rcases h1 with hv1 | ⟨he1, h1⟩
  · rcases h2 with hv2 | ⟨he2, h2⟩
    · exact .inl (lt_trans hv2 hv1)
    · exact .inl (by omega)
  · rcases h2 with hv2 | ⟨he2, h2⟩
    · exact .inl (by omega)
    · right
      refine ⟨by omega, ?_⟩
      rcases h1 with ha1 | ⟨hq1, hi1⟩ <;> rcases h2 with ha2 | ⟨hq2, hi2⟩
      · exact .inl (lt_trans ha2 ha1)
      · exact .inl (by rw [← hq2]; exact ha1)
      · exact .inl (by rw [hq1]; exact ha2)
      · exact .inr ⟨hq1.trans hq2, lt_trans hi1 hi2⟩

theorem moreRobust_asymm {a b : MCTSChild} (h1 : moreRobust a b = true) :
    moreRobust b a = false := by
  cases hba : moreRobust b a
  · rfl
  · have := moreRobust_trans h1 hba
    rw [moreRobust_irrefl] at this
    cases this

theorem bestChild_spec (h : MCTSChild) (t : List MCTSChild) :
    (bestChild h t = h ∨ moreRobust (bestChild h t) h = true) ∧
      bestChild h t ∈ h :: t ∧
      ∀ c ∈ t, moreRobust c (bestChild h t) = false := by
  induction t generalizing h with
  | nil =>
      refine ⟨.inl rfl, ?_, ?_⟩
      · simp [bestChild]
      · simp
  | cons c rest ih =>
      rw [show bestChild h (c :: rest) = bestChild (pickChild h c) rest from rfl]
      obtain ⟨ih1, ih2, ih3⟩ := ih (pickChild h c)
      by_cases hc : moreRobust c h = true
      · rw [pickChild, if_pos hc] at ih1 ih2 ih3 ⊢
        refine ⟨?_, ?_, ?_⟩
        · rcases ih1 with he | hm
          · right
            rw [he]
            exact hc
          · exact .inr (moreRobust_trans hm hc)
        · exact List.mem_cons_of_mem h ih2
        · intro x hx
          rcases List.mem_cons.mp hx with rfl | hxr
          · rcases ih1 with he | hm
            · rw [he]
              exact moreRobust_irrefl x
            · exact moreRobust_asymm hm
          · exact ih3 x hxr
      · have hcf : moreRobust c h = false := by
          cases hmr : moreRobust c h
          · rfl
          · exact absurd hmr hc
        rw [pickChild, if_neg hc] at ih1 ih2 ih3 ⊢
        refine ⟨ih1, ?_, ?_⟩
        · rcases List.mem_cons.mp ih2 with he | hm
          · exact List.mem_cons.mpr (.inl he)
          · exact List.mem_cons_of_mem h (List.mem_cons_of_mem c hm)
        · intro x hx
          rcases List.mem_cons.mp hx with rfl | hxr
          · rcases ih1 with he | hm
            · rw [he]
              exact hcf
            · cases hcb : moreRobust x (bestChild h rest)
              · rfl
              · have := moreRobust_trans hcb hm
                rw [hcf] at this
                cases this
          · exact ih3 x hxr

/-- C3: the MCTS action selection is total and well defined: on an empty
root (no legal actions) it returns PassTurn rather than failing, and on a
non-empty root it returns the action of a root child that is maximal for
the selection order — no other child has strictly more visits, nor equal
visits with strictly higher average reward, nor equal visits and average
reward with a lower action index. -/
theorem c3_mcts_selection_total (cs : List MCTSChild) :
    (cs = [] → bestAction cs = AIAction.passTurn) ∧
      (cs ≠ [] → ∃ c ∈ cs, bestAction cs = c.action ∧
        ∀ x ∈ cs, moreRobust x c = false) := by
  constructor
  · rintro rfl
    rfl
  · intro hne
    cases cs with
    | nil => exact absurd rfl hne
    | cons h t =>
        obtain ⟨h1, h2, h3⟩ := bestChild_spec h t
        refine ⟨bestChild h t, h2, rfl, ?_⟩
        intro x hx
        rcases List.mem_cons.mp hx with rfl | hxr
        · rcases h1 with he | hm
          · rw [he]
            exact moreRobust_irrefl x
          · exact moreRobust_asymm hm
        · exact h3 x hxr

theorem c3_witness :
    ∃ c ∈ ([⟨0, 5, 10, AIAction.passTurn⟩, ⟨1, 7, 3, AIAction.dock 1 1⟩] :
        List MCTSChild),
      bestAction [⟨0, 5, 10, AIAction.passTurn⟩, ⟨1, 7, 3, AIAction.dock 1 1⟩] =
        c.action ∧
      ∀ x ∈ ([⟨0, 5, 10, AIAction.passTurn⟩, ⟨1, 7, 3, AIAction.dock 1 1⟩] :
          List MCTSChild), moreRobust x c = false :=
  (c3_mcts_selection_total
    [⟨0, 5, 10, AIAction.passTurn⟩, ⟨1, 7, 3, AIAction.dock 1 1⟩]).2 (by simp)

/-- C9: a drop of ship S on a free berth B in the player's port (the
onDropShip callback is wired and berth.is_free holds) triggers exactly
one WasmGame.dockShip call, with S's id as the first argument and B's id
as the second — the order the WASM binding expects — even though the
PortProps/BerthProps type annotations name the callback parameters in
the order (berthId, shipId); on a non-free berth no call is made. -/
theorem c9_drop_calls_dockship_once (berthId shipId : Nat) :
    dropInvocations true true berthId shipId =
        [WasmCall.dockShipCall shipId berthId] ∧
      dropInvocations true false berthId shipId = [] := by
  exact ⟨rfl, rfl⟩

/-- C10: for every ship with containers > 0 and
containers_remaining ≤ containers, the unloading progress computed by
the Ship component is a well-defined number in [0, 100]; the division
carries no guard for containers = 0, so the positivity precondition is
what makes the value well defined. -/
theorem c10_progress_bounded (s : ShipView) (hpos : 0 < s.containers)
    (hle : s.containers_remaining ≤ s.containers) :
    0 ≤ shipProgress s ∧ shipProgress s ≤ 100 := by
  unfold shipProgress
  have hc : (0 : ℚ) < (s.containers : ℚ) := by exact_mod_cast hpos
  have hr0 : (0 : ℚ) ≤ (s.containers_remaining : ℚ) := by positivity
  have hr : (s.containers_remaining : ℚ) ≤ (s.containers : ℚ) := by exact_mod_cast hle
  constructor
  · have hnum : (0 : ℚ) ≤ (s.containers : ℚ) - (s.containers_remaining : ℚ) := by
      linarith
    have := div_nonneg hnum (le_of_lt hc)
    nlinarith
  · have hdiv : ((s.containers : ℚ) - (s.containers_remaining : ℚ)) / (s.containers : ℚ) ≤ 1 := by
      rw [div_le_one hc]
      linarith
    nlinarith [div_nonneg (by linarith :
      (0 : ℚ) ≤ (s.containers : ℚ) - (s.containers_remaining : ℚ)) (le_of_lt hc)]

theorem c10_witness :
    0 ≤ shipProgress ⟨50, 40⟩ ∧ shipProgress ⟨50, 40⟩ ≤ 100 :=
  c10_progress_bounded ⟨50, 40⟩ (by decide) (by decide)

end PortGame
